import Mathlib

/-!
Shallow embedding of the ray-tracing core of this repository
(src/util.rs, src/ray.rs, src/object.rs, src/light.rs,
src/material/basic.rs, src/material/compose.rs) over exact real
arithmetic.  f64 values are modelled as real numbers; every call to the
process-wide random number generator is modelled as an explicit oracle
argument supplying the draw the code makes at that point.
-/

noncomputable section

/-- Three-dimensional vector with f64 components (src/util.rs `Vec3`). -/
structure Vec3 where
  x : ℝ
  y : ℝ
  z : ℝ

/-- Colors are vectors, component-wise (src/util.rs `pub type Color = Vec3`). -/
abbrev Color := Vec3

instance : Add Vec3 := ⟨fun a b => ⟨a.x + b.x, a.y + b.y, a.z + b.z⟩⟩

instance : Sub Vec3 := ⟨fun a b => ⟨a.x - b.x, a.y - b.y, a.z - b.z⟩⟩

instance : Neg Vec3 := ⟨fun a => ⟨-a.x, -a.y, -a.z⟩⟩

/-- Component-wise product (src/util.rs `impl Mul<Vec3> for Vec3`). -/
instance : Mul Vec3 := ⟨fun a b => ⟨a.x * b.x, a.y * b.y, a.z * b.z⟩⟩

/-- Scalar times vector (src/util.rs `impl Mul<Vec3> for f64`). -/
instance : HMul ℝ Vec3 Vec3 := ⟨fun r v => ⟨v.x * r, v.y * r, v.z * r⟩⟩

/-- Vector times scalar (src/util.rs `impl<T: Into<f64>> Mul<T> for Vec3`). -/
instance : HMul Vec3 ℝ Vec3 := ⟨fun v r => ⟨v.x * r, v.y * r, v.z * r⟩⟩

/-- Vector divided by scalar (src/util.rs `impl<T: Into<f64>> Div<T> for Vec3`). -/
instance : HDiv Vec3 ℝ Vec3 := ⟨fun v r => ⟨v.x / r, v.y / r, v.z / r⟩⟩

/-- Dot product (src/util.rs `Vec3::dot`). -/
def Vec3.dot (a b : Vec3) : ℝ :=
  a.x * b.x + a.y * b.y + a.z * b.z

/-- Cross product (src/util.rs `Vec3::cross`). -/
def Vec3.cross (a b : Vec3) : Vec3 :=
  ⟨a.y * b.z - a.z * b.y, a.z * b.x - a.x * b.z, a.x * b.y - a.y * b.x⟩

/-- Squared length (src/util.rs `Vec3::len2`). -/
def Vec3.len2 (v : Vec3) : ℝ :=
  v.x ^ 2 + v.y ^ 2 + v.z ^ 2

/-- Length (src/util.rs `Vec3::len`). -/
def Vec3.len (v : Vec3) : ℝ :=
  Real.sqrt v.len2

/-- Normalization (src/util.rs `Vec3::unit`, `self / self.len()`). -/
def Vec3.unit (v : Vec3) : Vec3 :=
  v / v.len

/-- Projection of `a` onto `b` (src/util.rs `Vec3::proj_to`). -/
def Vec3.projTo (a b : Vec3) : Vec3 :=
  let n := b.unit
  n * (a.dot n)

/-- The global epsilon constant (src/util.rs `EPS = 1e-3`). -/
def EPS : ℝ := 1e-3

/-- A ray: origin plus direction (src/ray.rs `Ray`). -/
structure Ray where
  pos : Vec3
  dir : Vec3

/-- From src/ray.rs `Ray::new`: the direction is normalized at construction. -/
def Ray.new (pos dir : Vec3) : Ray :=
  ⟨pos, dir.unit⟩

/-- Result of an intersection (src/ray.rs `HitInfo`). -/
structure HitInfo where
  distance : ℝ
  norm : Vec3
  hitPoint : Vec3
  dirIn : Vec3
  dirOut : Vec3
  outward : Bool

/-- From src/ray.rs `HitInfo::new`: normalize the raw normal and the incoming
direction, flip the normal (and set the `outward` flag) when its dot with
the incoming direction exceeds `-EPS`, and store the normalized mirror
reflection as `dirOut`. -/
def HitInfo.new (distance : ℝ) (norm hitPoint dirIn : Vec3) : HitInfo :=
  let n0 := norm.unit
  let dIn := dirIn.unit
  let n := if n0.dot dIn > -EPS then -n0 else n0
  let outward := decide (n0.dot dIn > -EPS)
  let dirOut := (dIn - (2 : ℝ) * dIn.projTo n).unit
  ⟨distance, n, hitPoint, dIn, dirOut, outward⟩

/-- From src/ray.rs `HitInfo::pos`: the epsilon-offset hit position. -/
def HitInfo.pos (h : HitInfo) : Vec3 :=
  h.hitPoint + EPS * h.dirOut

/-- From src/ray.rs `HitInfo::reflect`: the specular bounce ray (note: built
with a struct literal, so the direction is not re-normalized). -/
def HitInfo.reflect (h : HitInfo) : Ray :=
  ⟨h.pos, h.dirOut⟩

/-- From src/ray.rs `HitInfo::refract`: Snell refraction; `none` signals total
internal reflection (`discriminant <= 0`). -/
def HitInfo.refract (h : HitInfo) (ratio : ℝ) : Option Ray :=
  let uv := h.dirIn
  let n := h.norm
  let cos := uv.dot n
  let disc := 1 - ratio ^ 2 * (1 - cos ^ 2)
  if 0 < disc then
    let dir := ratio * (uv - n * cos) - n * Real.sqrt disc
    some ⟨h.hitPoint + EPS * dir, dir⟩
  else
    none

/-- From src/ray.rs `HitInfo::reflect_prob`: Schlick's approximation as the
source writes it. -/
def HitInfo.reflectProb (h : HitInfo) (ior : ℝ) : ℝ :=
  let r0 := (1 - ior) / (1 + ior) ^ 2
  let cos := |h.dirIn.dot h.norm|
  r0 + (1 - r0) * (1 - cos) ^ 5

/-- From src/material/basic.rs `PhongModel` fields. -/
structure PhongModel where
  shininess : ℝ
  diffuse : ℝ
  color : Color

/-- From src/material/basic.rs `Specular` fields. -/
structure Specular where
  albedo : ℝ

/-- From src/material/basic.rs `Transparent` fields. -/
structure Transparent where
  opacity : ℝ
  ior : ℝ
  color : Color

/-- From src/material/compose.rs `Metal` fields. -/
structure Metal where
  s : Specular
  fuzz : ℝ
  color : Color

/-- From src/material/compose.rs `Dielectric` fields. -/
structure Dielectric where
  s : Specular
  r : Transparent

/-- From src/material/compose.rs `LambertianModel` fields. -/
structure LambertianModel where
  s : Specular
  c : Color

/-- Closed sum of the `dyn Material` implementors reachable from scene
code (src/material/basic.rs and src/material/compose.rs). -/
inductive Material where
  | phong : PhongModel → Material
  | specular : Specular → Material
  | transparent : Transparent → Material
  | metal : Metal → Material
  | dielectric : Dielectric → Material
  | lambertian : LambertianModel → Material

/-- From src/object.rs (current revision) `HitRecord { material, info }` as
built by `Object::hit_by`. -/
structure HitRecord where
  material : Material
  info : HitInfo

/-- From src/ray.rs `HitRecord::distance` accessor. -/
def HitRecord.distance (r : HitRecord) : ℝ :=
  r.info.distance

/-- Comparison `partial_cmp` on two non-NaN f64 values; on the reals every pair is
comparable, so this is the total comparison the `unwrap` in
src/ray.rs `Ray::hit` relies on. -/
def rcompare (a b : ℝ) : Ordering :=
  if a < b then Ordering.lt else if b < a then Ordering.gt else Ordering.eq

/-- Rust `Iterator::min_by` with a total comparator: fold keeping the
current minimum, preferring the earlier element on ties. -/
def rustMinBy (cmp : α → α → Ordering) : List α → Option α
  | [] => none
  | x :: xs => some (xs.foldl (fun acc y => if cmp acc y = Ordering.gt then y else acc) x)

/-- From src/object.rs `Triangle`. -/
structure Triangle where
  p0 : Vec3
  p1 : Vec3
  p2 : Vec3

/-- From src/object.rs `Triangle::normal`. -/
def Triangle.normal (t : Triangle) : Vec3 :=
  ((t.p1 - t.p0).cross (t.p2 - t.p0)).unit

/-- From src/object.rs `impl Shape for Triangle`, `hit_info`:
Möller–Trumbore with the source's epsilon rejections. -/
def Triangle.hitInfo (tr : Triangle) (ray : Ray) : Option HitInfo :=
  let e1 := tr.p1 - tr.p0
  let e2 := tr.p2 - tr.p0
  let h := ray.dir.cross e2
  let a := e1.dot h
  if -EPS < a ∧ a < EPS then none
  else
    let f := 1 / a
    let s := ray.pos - tr.p0
    let u := f * s.dot h
    if u < 0 ∨ u > 1 then none
    else
      let q := s.cross e1
      let v := f * ray.dir.dot q
      if v < 0 ∨ u + v > 1 then none
      else
        let t := f * e2.dot q
        if t > EPS then
          some (HitInfo.new t ((e1.cross e2).unit) (t * ray.dir + ray.pos) ray.dir)
        else none

/-- From src/object.rs `Triangle::hit_moving`: translate all vertices by
`delta`, then intersect. -/
def Triangle.hitMoving (tr : Triangle) (ray : Ray) (delta : Vec3) : Option HitInfo :=
  Triangle.hitInfo ⟨tr.p0 + delta, tr.p1 + delta, tr.p2 + delta⟩ ray

/-- From src/object.rs `Square`: two triangles sharing a diagonal. -/
structure Square where
  tri0 : Triangle
  tri1 : Triangle

/-- From src/object.rs `Square::new`. -/
def Square.new (center x y : Vec3) (len : ℝ) : Square :=
  let x2 := x * (len / 2)
  let y2 := y * (len / 2)
  let p0 := center - x2 + y2
  let p1 := center - x2 - y2
  let p2 := center + x2 - y2
  let p3 := center + x2 + y2
  ⟨⟨p0, p1, p2⟩, ⟨p2, p3, p0⟩⟩

/-- From src/object.rs `impl Shape for Square`, `hit_info`: first triangle's
hit, or else the second's (`Option::or`). -/
def Square.hitInfo (sq : Square) (ray : Ray) : Option HitInfo :=
  match sq.tri0.hitInfo ray with
  | some i => some i
  | none => sq.tri1.hitInfo ray

/-- From src/object.rs `impl Shape for Square`, `hit_moving`. -/
def Square.hitMoving (sq : Square) (ray : Ray) (delta : Vec3) : Option HitInfo :=
  match sq.tri0.hitMoving ray delta with
  | some i => some i
  | none => sq.tri1.hitMoving ray delta

/-- From src/object.rs `Sphere`. -/
structure Sphere where
  center : Vec3
  radius : ℝ

/-- Quadratic coefficient `a` in `Sphere::hit_info`. -/
def Sphere.aCoef (_s : Sphere) (ray : Ray) : ℝ :=
  ray.dir.len2

/-- Quadratic coefficient `b` in `Sphere::hit_info`. -/
def Sphere.bCoef (s : Sphere) (ray : Ray) : ℝ :=
  2 * ((ray.pos - s.center).dot ray.dir)

/-- Quadratic coefficient `c` in `Sphere::hit_info`. -/
def Sphere.cCoef (s : Sphere) (ray : Ray) : ℝ :=
  (ray.pos - s.center).len2 - s.radius ^ 2

/-- Discriminant `delta` in `Sphere::hit_info`. -/
def Sphere.delta (s : Sphere) (ray : Ray) : ℝ :=
  Sphere.bCoef s ray ^ 2 - 4 * Sphere.aCoef s ray * Sphere.cCoef s ray

/-- Smaller quadratic root `t1` in `Sphere::hit_info`. -/
def Sphere.t1 (s : Sphere) (ray : Ray) : ℝ :=
  (-Sphere.bCoef s ray - Real.sqrt (Sphere.delta s ray)) / (2 * Sphere.aCoef s ray)

/-- Larger quadratic root `t2` in `Sphere::hit_info`. -/
def Sphere.t2 (s : Sphere) (ray : Ray) : ℝ :=
  (-Sphere.bCoef s ray + Real.sqrt (Sphere.delta s ray)) / (2 * Sphere.aCoef s ray)

/-- The selected hit parameter `t` in `Sphere::hit_info`:
`if t1 < 0. { t2 } else { t1 }`. -/
def Sphere.tHit (s : Sphere) (ray : Ray) : ℝ :=
  if Sphere.t1 s ray < 0 then Sphere.t2 s ray else Sphere.t1 s ray

/-- The hit point `point` in `Sphere::hit_info`. -/
def Sphere.point (s : Sphere) (ray : Ray) : Vec3 :=
  ray.pos + ray.dir * Sphere.tHit s ray

/-- The raw normal `norm` computed in `Sphere::hit_info`: normalized
`point - center`, negated when the radius is negative. -/
def Sphere.normAt (s : Sphere) (point : Vec3) : Vec3 :=
  if s.radius < 0 then -(point - s.center).unit else (point - s.center).unit

/-- From src/object.rs `impl Shape for Sphere`, `hit_info`. -/
def Sphere.hitInfo (s : Sphere) (ray : Ray) : Option HitInfo :=
  if Sphere.delta s ray < 0 then none
  else if Sphere.t2 s ray < 0 then none
  else
    some (HitInfo.new (Sphere.tHit s ray) (Sphere.normAt s (Sphere.point s ray))
      (Sphere.point s ray) ray.dir)

/-- From src/object.rs `Sphere::hit_moving`: translate the center by `delta`. -/
def Sphere.hitMoving (s : Sphere) (ray : Ray) (delta : Vec3) : Option HitInfo :=
  Sphere.hitInfo ⟨s.center + delta, s.radius⟩ ray

/-- From src/object.rs `Cube`. -/
structure Cube where
  center : Vec3
  x : Vec3
  y : Vec3
  len : ℝ

/-- From src/object.rs `Cube::squares`: the six faces. -/
def Cube.squaresOf (c : Cube) : List Square :=
  let x := c.x.unit
  let y := c.y.unit
  let z := (x.cross y).unit
  [Square.new (c.center + x * (c.len / 2)) y z c.len,
   Square.new (c.center - x * (c.len / 2)) (-y) z c.len,
   Square.new (c.center + y * (c.len / 2)) (-x) z c.len,
   Square.new (c.center - y * (c.len / 2)) x z c.len,
   Square.new (c.center + z * (c.len / 2)) x y c.len,
   Square.new (c.center - z * (c.len / 2)) x (-y) c.len]

/-- From src/object.rs `impl Shape for Cube`, `hit_info`: minimum-distance hit
among the faces; the source's comparator is
`partial_cmp(..).unwrap_or(Equal)`, which on the (NaN-free) reals is the
total comparison `rcompare`. -/
def Cube.hitInfo (c : Cube) (ray : Ray) : Option HitInfo :=
  rustMinBy (fun a b => rcompare a.distance b.distance)
    ((Cube.squaresOf c).filterMap (fun sq => Square.hitInfo sq ray))

/-- From src/object.rs `impl Shape for Cube`, `hit_moving`. -/
def Cube.hitMoving (c : Cube) (ray : Ray) (delta : Vec3) : Option HitInfo :=
  rustMinBy (fun a b => rcompare a.distance b.distance)
    ((Cube.squaresOf c).filterMap (fun sq => Square.hitMoving sq ray delta))

/-- Closed sum of the `dyn Shape` implementors (src/object.rs). -/
inductive Shape where
  | sphere : Sphere → Shape
  | triangle : Triangle → Shape
  | square : Square → Shape
  | cube : Cube → Shape

/-- Dispatch of the `Shape::hit_info` trait method. -/
def Shape.hitInfo : Shape → Ray → Option HitInfo
  | .sphere s, ray => Sphere.hitInfo s ray
  | .triangle t, ray => Triangle.hitInfo t ray
  | .square sq, ray => Square.hitInfo sq ray
  | .cube c, ray => Cube.hitInfo c ray

/-- Dispatch of the `Shape::hit_moving` trait method. -/
def Shape.hitMoving : Shape → Ray → Vec3 → Option HitInfo
  | .sphere s, ray, delta => Sphere.hitMoving s ray delta
  | .triangle t, ray, delta => Triangle.hitMoving t ray delta
  | .square sq, ray, delta => Square.hitMoving sq ray delta
  | .cube c, ray, delta => Cube.hitMoving c ray delta

/-- Closed sum of the `dyn LightSource` implementors (src/light.rs). -/
inductive Light where
  | parallel : Vec3 → Color → Light
  | point : Vec3 → Color → Light
  | sky : Light
  | lightShape : Shape → Color → Light

/-- From src/object.rs `Object`: one shape, one material, a motion vector. -/
structure Object where
  shape : Shape
  material : Material
  movingTo : Vec3

/-- From src/object.rs `Object::moving_delta`: a fresh uniform draw `t` scales
the motion vector; `t` is the oracle argument here. -/
def Object.movingDelta (o : Object) (t : ℝ) : Vec3 :=
  t * o.movingTo

/-- From src/object.rs `Object::hit_by`: intersect the (jittered) shape and
attach the object's material. -/
def Object.hitBy (o : Object) (t : ℝ) (ray : Ray) : Option HitRecord :=
  (o.shape.hitMoving ray (o.movingDelta t)).map (fun info => ⟨o.material, info⟩)

/-- From src/object.rs `World`: objects plus lights. -/
structure World where
  objects : List Object
  lights : List Light

/-- From src/ray.rs `Ray::hit`: filter-map `hit_by` over all objects and take
`min_by` on distances with `partial_cmp(..).unwrap()`; `ts i` is the
motion draw the i-th object's `hit_by` makes. -/
def Ray.hit (ray : Ray) (w : World) (ts : ℕ → ℝ) : Option HitRecord :=
  rustMinBy (fun a b => rcompare a.distance b.distance)
    ((w.objects.enum).filterMap (fun p => Object.hitBy p.2 (ts p.1) ray))

/-- From src/light.rs `SkyLight::color_from`: vertical white-to-blue gradient. -/
def skyColorFrom (dir : Vec3) : Color :=
  let t := 0.5 * (dir.z + 1)
  let v := 1 - t
  v * (⟨1, 1, 1⟩ : Vec3) + t * (⟨0.5, 0.7, 1⟩ : Vec3)

/-- From src/light.rs `LightSource::intensity` per implementor: 1 for
`ParallelLight` and `SkyLight`, inverse squared distance for
`PointLight`, and for `LightShape` 1 when the hit's reflect ray strikes
the light's own shape and 0 otherwise. -/
def Light.intensity : Light → HitInfo → ℝ
  | .parallel _ _, _ => 1
  | .point p _, h => 1 / (p - h.pos).len2
  | .sky, _ => 1
  | .lightShape sh _, h => if (Shape.hitInfo sh h.reflect).isSome then 1 else 0

/-- From src/light.rs `LightSource::dir_at` per implementor. -/
def Light.dirAt : Light → HitInfo → Vec3
  | .parallel d _, _ => d
  | .point p _, h => (h.pos - p).unit
  | .sky, h => -h.dirOut
  | .lightShape _ _, h => -h.reflect.dir

/-- From src/light.rs `LightSource::color` per implementor. -/
def Light.colorAt : Light → HitInfo → Color
  | .parallel _ c, _ => c
  | .point _ c, _ => c
  | .sky, h => skyColorFrom h.dirOut
  | .lightShape _ c, _ => c

/-- From src/light.rs `LightSource::is_in_shadow` per implementor; `ts` feeds
the motion draws of the shadow ray's `Ray::hit` search. -/
def Light.isInShadow (l : Light) (h : HitInfo) (w : World) (ts : ℕ → ℝ) : Bool :=
  match l with
  | .parallel d _ => (Ray.hit (Ray.new h.pos (-d)) w ts).isSome
  | .point p _ =>
    match Ray.hit (Ray.new h.pos (-(h.pos - p).unit)) w ts with
    | some rec => decide ((h.pos - rec.info.hitPoint).len2 + EPS < (h.pos - p).len2)
    | none => false
  | .sky => (Ray.hit h.reflect w ts).isSome
  | .lightShape sh _ =>
    match Ray.hit h.reflect w ts, Shape.hitInfo sh h.reflect with
    | some rec, some info => decide (rec.info.distance < info.distance)
    | _, _ => false

/-- From src/light.rs `LightSource::looked` per implementor: the trait default
is `None`; `SkyLight` claims rays that hit nothing, `LightShape` claims
rays that see its shape nearer than any scene hit. -/
def Light.looked (l : Light) (ray : Ray) (w : World) (ts : ℕ → ℝ) : Option Color :=
  match l with
  | .sky => if (Ray.hit ray w ts).isSome then none else some (skyColorFrom ray.dir)
  | .lightShape sh c =>
    match Shape.hitInfo sh ray with
    | none => none
    | some info =>
      match Ray.hit ray w ts with
      | none => some c
      | some rec => if info.distance < rec.info.distance then some c else none
  | _ => none

/-- From src/material/basic.rs `Specular::render`: `albedo * traced[0]`; the
index is modelled by `List.get?`, `none` meaning the out-of-bounds
panic. -/
def Specular.render (s : Specular) (_h : HitInfo) (_w : World) (traced : List Color) :
    Option Color :=
  (traced.get? 0).map (fun t0 => s.albedo * t0)

/-- From src/material/basic.rs `Transparent::render`:
`color * (1 - opacity) * traced[0]`, same panic modelling. -/
def Transparent.render (t : Transparent) (_h : HitInfo) (_w : World) (traced : List Color) :
    Option Color :=
  (traced.get? 0).map (fun t0 => t.color * (1 - t.opacity) * t0)

/-- From src/material/basic.rs `Transparent::scatter`: pick the refraction
ratio by `is_to_outward`, refract, and fall back to the specular reflect
ray on total internal reflection. -/
def Transparent.scatter (t : Transparent) (h : HitInfo) : List Ray :=
  let n := if h.outward then t.ior else 1 / t.ior
  match h.refract n with
  | some ray => [ray]
  | none => [h.reflect]

/-- Modelled from the spec: the `Material` trait definition
(material/mod.rs) is missing from src/, only its implementors are
present.  Per the spec's Specular/Metal-base contract ("`scatter`
returns one reflected ray"), the default `scatter` used by the plain
`Specular` material is the one specular bounce `hit.reflect()`. -/
def Material.defaultScatter (h : HitInfo) : List Ray :=
  [h.reflect]

/-- From src/util.rs `gen_point_in_sphere`: the two oracle draws are the
angles `theta` and `phi`. -/
def genPointInSphere (radius theta phi : ℝ) : Vec3 :=
  ⟨radius * (Real.sin phi * Real.cos theta),
   radius * (Real.sin phi * Real.sin theta),
   radius * Real.cos phi⟩

/-- Dispatch of `Material::scatter` (src/material/basic.rs and
src/material/compose.rs); `u` is the uniform draw of
`Dielectric::scatter`, `theta`/`phi` the sphere-sampling draws of
`Metal`/`LambertianModel`. -/
def Material.scatter (m : Material) (h : HitInfo) (u theta phi : ℝ) : List Ray :=
  match m with
  | .phong _ => []
  | .specular _ => Material.defaultScatter h
  | .transparent t => Transparent.scatter t h
  | .metal mt =>
    let r := h.reflect
    [⟨r.pos, (r.dir + genPointInSphere mt.fuzz theta phi).unit⟩]
  | .dielectric d =>
    if u < h.reflectProb d.r.ior then Material.defaultScatter h
    else Transparent.scatter d.r h
  | .lambertian _ =>
    let r := h.reflect
    [⟨r.pos, (r.dir + genPointInSphere 1 theta phi).unit⟩]

/-- From src/material/basic.rs `PhongModel::render`: per light, either the
light's `looked` color for the reflect ray, or the Phong sum of
specular, diffuse and ambient terms (zeroed to ambient in shadow);
`lr i k` feeds the motion draws of light i's k-th ray cast. -/
def PhongModel.render (pm : PhongModel) (h : HitInfo) (w : World)
    (lr : ℕ → ℕ → ℕ → ℝ) : Color :=
  let c := ((w.lights.enum).map (fun p =>
    match Light.looked p.2 h.reflect w (lr p.1 0) with
    | some col => col
    | none =>
      let ratio2 := h.dirOut.dot (-(Light.dirAt p.2 h))
      let si := max (min (Real.rpow ratio2 pm.shininess) 1) 0
      let di := max (h.norm.dot (-(Light.dirAt p.2 h))) 0
      let ai := (0.1 : ℝ)
      let li := Light.intensity p.2 h * Light.colorAt p.2 h
      if Light.isInShadow p.2 h w (lr p.1 1) then ai * li
      else (si * 0.5 + di * 0.5 + ai) * li)).foldl (fun a b => a + b) ⟨0, 0, 0⟩
  pm.diffuse * c * pm.color

/-- Dispatch of `Material::render`; `none` models an index-out-of-bounds
panic on `traced[0]`. -/
def Material.render (m : Material) (h : HitInfo) (w : World)
    (lr : ℕ → ℕ → ℕ → ℝ) (traced : List Color) : Option Color :=
  match m with
  | .phong pm => some (PhongModel.render pm h w lr)
  | .specular s => Specular.render s h w traced
  | .transparent t => Transparent.render t h w traced
  | .metal mt => (Specular.render mt.s h w traced).map (fun si => si * mt.color)
  | .dielectric d => Transparent.render d.r h w traced
  | .lambertian lm => (Specular.render lm.s h w traced).map (fun si => lm.c * si)

/-- Sequencing of `Option` results: `some` of the list of values when
every element is `some`, else `none` (a panic below propagates). -/
def optionAll : List (Option α) → Option (List α)
  | [] => some []
  | x :: xs =>
    match x with
    | none => none
    | some a =>
      match optionAll xs with
      | none => none
      | some rest => some (a :: rest)

/-- Oracle for every random draw `World::trace` can make, indexed by the
position (path) of the recursive call in the trace tree. -/
structure Rnd where
  lookTs : List ℕ → ℕ → ℕ → ℝ
  hitTs : List ℕ → ℕ → ℝ
  u : List ℕ → ℝ
  theta : List ℕ → ℝ
  phi : List ℕ → ℝ
  shadeTs : List ℕ → ℕ → ℕ → ℕ → ℝ

/-- From src/object.rs `World::trace`: depth 0 is black; otherwise lights that
`looked` the ray short-circuit with their summed colors; otherwise the
nearest hit's material scatters, the scattered rays are traced at
depth - 1, and the material renders the traced colors (black when
nothing is hit).  `none` models a panic inside a render. -/
def World.trace (w : World) (rnd : Rnd) : ℕ → Ray → List ℕ → Option Color
  | 0, _, _ => some ⟨0, 0, 0⟩
  | Nat.succ d, ray, path =>
    let looks := (w.lights.enum).filterMap (fun p => Light.looked p.2 ray w (rnd.lookTs path p.1))
    if looks.isEmpty then
      match Ray.hit ray w (rnd.hitTs path) with
      | none => some ⟨0, 0, 0⟩
      | some rec =>
        let rays := Material.scatter rec.material rec.info (rnd.u path) (rnd.theta path) (rnd.phi path)
        match optionAll ((rays.enum).map (fun p => World.trace w rnd d p.2 (p.1 :: path))) with
        | none => none
        | some traced => Material.render rec.material rec.info w (rnd.shadeTs path) traced
    else
      some (looks.foldl (fun a b => a + b) ⟨0, 0, 0⟩)

/-- f64 values including NaN, for the comparator-level analysis of the
nearest-hit reductions. -/
inductive F where
  | nan : F
  | val : ℝ → F

/-- Embedded `f64::partial_cmp`: `none` when either side is NaN. -/
def F.pcmp : F → F → Option Ordering
  | .val a, .val b => some (rcompare a b)
  | _, _ => none

/-- The distance comparator of src/ray.rs `Ray::hit` (lines 22-26):
bare `partial_cmp`, whose `unwrap` panics (`none`) on incomparable
values. -/
def rayHitDistCmp (a b : F) : Option Ordering :=
  F.pcmp a b

/-- The distance comparator of src/object.rs `Cube::hit_info` (lines
238-242): `partial_cmp(..).unwrap_or(Equal)`. -/
def cubeDistCmp (a b : F) : Ordering :=
  (F.pcmp a b).getD Ordering.eq

/-- Accumulator loop of Rust `Iterator::min_by` under a comparator that
may panic; outer `none` is the panic. -/
def rustMinByCheckedGo (cmp : α → α → Option Ordering) : α → List α → Option (Option α)
  | acc, [] => some (some acc)
  | acc, y :: ys =>
    match cmp acc y with
    | none => none
    | some Ordering.gt => rustMinByCheckedGo cmp y ys
    | some _ => rustMinByCheckedGo cmp acc ys

/-- Rust `Iterator::min_by` under a comparator that may panic: outer
`none` is the panic, inner `none` the empty iterator. -/
def rustMinByChecked (cmp : α → α → Option Ordering) : List α → Option (Option α)
  | [] => some none
  | x :: xs => rustMinByCheckedGo cmp x xs

/-! Component-level unfolding lemmas for the vector operations. -/

@[simp] theorem Vec3.add_def (a b : Vec3) : a + b = ⟨a.x + b.x, a.y + b.y, a.z + b.z⟩ := rfl

@[simp] theorem Vec3.sub_def (a b : Vec3) : a - b = ⟨a.x - b.x, a.y - b.y, a.z - b.z⟩ := rfl

@[simp] theorem Vec3.neg_def (v : Vec3) : -v = ⟨-v.x, -v.y, -v.z⟩ := rfl

@[simp] theorem Vec3.hadamard_def (a b : Vec3) : a * b = ⟨a.x * b.x, a.y * b.y, a.z * b.z⟩ := rfl

@[simp] theorem Vec3.smul_def (r : ℝ) (v : Vec3) : r * v = ⟨v.x * r, v.y * r, v.z * r⟩ := rfl

@[simp] theorem Vec3.muls_def (v : Vec3) (r : ℝ) : v * r = ⟨v.x * r, v.y * r, v.z * r⟩ := rfl

@[simp] theorem Vec3.div_def (v : Vec3) (r : ℝ) : v / r = ⟨v.x / r, v.y / r, v.z / r⟩ := rfl

theorem Vec3.len2_nonneg (v : Vec3) : 0 ≤ v.len2 := by
  unfold Vec3.len2; positivity

theorem Vec3.len_sq (v : Vec3) : v.len ^ 2 = v.len2 :=
  Real.sq_sqrt v.len2_nonneg

theorem Vec3.len2_eq_zero_iff (v : Vec3) : v.len2 = 0 ↔ v = ⟨0, 0, 0⟩ := by
  unfold Vec3.len2
  constructor
  · intro h
    have hx : v.x = 0 := by nlinarith [sq_nonneg v.x, sq_nonneg v.y, sq_nonneg v.z]
    have hy : v.y = 0 := by nlinarith [sq_nonneg v.x, sq_nonneg v.y, sq_nonneg v.z]
    have hz : v.z = 0 := by nlinarith [sq_nonneg v.x, sq_nonneg v.y, sq_nonneg v.z]
    cases v
    simp_all
  · intro h
    rw [h]
    norm_num

theorem Vec3.unit_eq_self (v : Vec3) (h : v.len2 = 1) : v.unit = v := by
  unfold Vec3.unit Vec3.len
  rw [h, Real.sqrt_one]
  cases v
  simp

theorem Vec3.unit_len2 (v : Vec3) (h : v.len2 ≠ 0) : v.unit.len2 = 1 := by
  have hlen : v.len ^ 2 = v.len2 := v.len_sq
  have hl0 : v.len ≠ 0 := by
    intro h0
    apply h
    rw [← hlen, h0]
    norm_num
  unfold Vec3.unit
  simp only [Vec3.div_def]
  unfold Vec3.len2 at h ⊢
  unfold Vec3.len2 at hlen
  field_simp
  linarith [hlen]

theorem Vec3.zero_unit : (⟨0, 0, 0⟩ : Vec3).unit = ⟨0, 0, 0⟩ := by
  unfold Vec3.unit
  simp

theorem Vec3.unit_zero_or_len2_one (v : Vec3) :
    v.unit = ⟨0, 0, 0⟩ ∨ v.unit.len2 = 1 := by
  by_cases h : v.len2 = 0
  · left
    rw [(v.len2_eq_zero_iff).mp h]
    exact Vec3.zero_unit
  · right
    exact v.unit_len2 h

theorem Vec3.neg_len2 (v : Vec3) : (-v).len2 = v.len2 := by
  cases v
  unfold Vec3.len2
  simp only [Vec3.neg_def]
  ring

theorem rcompare_eq_gt (a b : ℝ) : rcompare a b = Ordering.gt ↔ b < a := by
  unfold rcompare
  split_ifs with h1 h2
  · simp only [reduceCtorEq, false_iff, not_lt]
    exact le_of_lt h1
  · simp [h2]
  · simp only [reduceCtorEq, false_iff]
    exact h2

theorem rustMinBy_eq_none_iff (cmp : α → α → Ordering) (l : List α) :
    rustMinBy cmp l = none ↔ l = [] := by
  cases l <;> simp [rustMinBy]

theorem foldlMin_le (f : α → ℝ) (xs : List α) (acc : α) :
    f (xs.foldl (fun a y => if rcompare (f a) (f y) = Ordering.gt then y else a) acc) ≤ f acc ∧
    ∀ y ∈ xs,
      f (xs.foldl (fun a y => if rcompare (f a) (f y) = Ordering.gt then y else a) acc) ≤ f y := by
  induction xs generalizing acc with
  | nil => exact ⟨le_refl _, by simp⟩
  | cons x xs ih =>
    have hstep :
        f ((fun a y => if rcompare (f a) (f y) = Ordering.gt then y else a) acc x) ≤ f acc ∧
        f ((fun a y => if rcompare (f a) (f y) = Ordering.gt then y else a) acc x) ≤ f x := by
      by_cases hgt : rcompare (f acc) (f x) = Ordering.gt
      · have := (rcompare_eq_gt _ _).mp hgt
        simp only [hgt, if_pos]
        exact ⟨le_of_lt this, le_refl _⟩
      · have := (rcompare_eq_gt (f acc) (f x)).not.mp hgt
        simp only [hgt, if_neg, ite_false]
        exact ⟨le_refl _, le_of_not_lt this⟩
    constructor
    · exact le_trans (ih _).1 hstep.1
    · intro y hy
      rcases List.mem_cons.mp hy with rfl | hmem
      · exact le_trans (ih _).1 hstep.2
      · exact (ih _).2 y hmem

theorem sqrt_four : Real.sqrt 4 = 2 := by
  rw [show (4 : ℝ) = 2 ^ 2 by norm_num]
  exact Real.sqrt_sq (by norm_num)

theorem rustMinByCheckedGo_total (cmpT : α → α → Ordering) (l : List α) :
    ∀ acc : α, rustMinByCheckedGo (fun a b => some (cmpT a b)) acc l ≠ none := by
  induction l with
  | nil => intro acc; simp [rustMinByCheckedGo]
  | cons y ys ih =>
    intro acc
    cases h : cmpT acc y with
    | lt => simpa [rustMinByCheckedGo, h] using ih acc
    | eq => simpa [rustMinByCheckedGo, h] using ih acc
    | gt => simpa [rustMinByCheckedGo, h] using ih y

theorem rustMinByCheckedGo_nonan (l : List F) :
    ∀ acc : F, acc ≠ F.nan → (∀ x ∈ l, x ≠ F.nan) →
      rustMinByCheckedGo rayHitDistCmp acc l ≠ none := by
  induction l with
  | nil => intro acc _ _; simp [rustMinByCheckedGo]
  | cons y ys ih =>
    intro acc hacc hl
    obtain ⟨a, rfl⟩ : ∃ a, acc = F.val a := by
      cases acc
      · exact absurd rfl hacc
      · exact ⟨_, rfl⟩
    obtain ⟨b, rfl⟩ : ∃ b, y = F.val b := by
      have := hl y (List.mem_cons_self y ys)
      cases y
      · exact absurd rfl this
      · exact ⟨_, rfl⟩
    have hys : ∀ x ∈ ys, x ≠ F.nan := fun x hx => hl x (List.mem_cons_of_mem _ hx)
    cases h : rcompare a b with
    | lt => simpa [rustMinByCheckedGo, rayHitDistCmp, F.pcmp, h] using ih (F.val a) (by simp) hys
    | eq => simpa [rustMinByCheckedGo, rayHitDistCmp, F.pcmp, h] using ih (F.val a) (by simp) hys
    | gt => simpa [rustMinByCheckedGo, rayHitDistCmp, F.pcmp, h] using ih (F.val b) (by simp) hys

/-- C2: for every world, ray and randomness, `World::trace` at depth 0
returns black immediately: the depth test is the first statement of the
body, so no light lookup, intersection search or shading is reached. -/
theorem trace_depth_zero_black (w : World) (rnd : Rnd) (ray : Ray) (path : List ℕ) :
    World.trace w rnd 0 ray path = some ⟨0, 0, 0⟩ := rfl

/-- C3 counterexample: the comparator of `Ray::hit` (bare
`partial_cmp(..).unwrap()`) panics — modelled as `none` — as soon as two
candidate distances are incomparable (one is NaN), so the claim that the
nearest-hit reduction always falls back to `Equal` and always returns a
result is false for `Ray::hit`. -/
theorem ray_hit_cmp_panics_cex :
    rustMinByChecked rayHitDistCmp [F.val 1, F.nan] = none := rfl

/-- C3 amended: `Cube`'s reduction (`partial_cmp(..).unwrap_or(Equal)`)
never panics on any input, while `Ray::hit`'s unwrap-based reduction is
panic-free only when no candidate distance is NaN. -/
theorem nearest_hit_reduction_amended :
    (∀ l : List F, rustMinByChecked (fun a b => some (cubeDistCmp a b)) l ≠ none) ∧
    (∀ l : List F, (∀ x ∈ l, x ≠ F.nan) → rustMinByChecked rayHitDistCmp l ≠ none) := by
  constructor
  · intro l
    cases l with
    | nil => simp [rustMinByChecked]
    | cons x xs => exact rustMinByCheckedGo_total cubeDistCmp xs x
  · intro l hl
    cases l with
    | nil => simp [rustMinByChecked]
    | cons x xs =>
      exact rustMinByCheckedGo_nonan xs x (hl x (List.mem_cons_self x xs))
        (fun y hy => hl y (List.mem_cons_of_mem x hy))

/-- Witness for the amended C3 statement on a concrete NaN-free list. -/
theorem nearest_hit_reduction_witness :
    rustMinByChecked rayHitDistCmp [F.val 1, F.val 2] ≠ none := by
  apply nearest_hit_reduction_amended.2
  intro x hx
  rcases List.mem_cons.mp hx with rfl | hx2
  · simp
  · rcases List.mem_cons.mp hx2 with rfl | hx3
    · simp
    · simp at hx3

/-- C7 corrected: intensities per light variant.  `PointLight` attenuates
as one over the squared distance from the (offset) hit position to the
light; `ParallelLight` and `SkyLight` are the constant 1; but
`LightShape::intensity` is 1 or 0 depending on whether the hit's reflect
ray strikes the light's shape — it is not the constant 1. -/
theorem light_intensity_amended :
    (∀ (p : Vec3) (c : Color) (h : HitInfo),
      Light.intensity (Light.point p c) h = 1 / (p - h.pos).len2) ∧
    (∀ (d : Vec3) (c : Color) (h : HitInfo), Light.intensity (Light.parallel d c) h = 1) ∧
    (∀ h : HitInfo, Light.intensity Light.sky h = 1) ∧
    (∀ (sh : Shape) (c : Color) (h : HitInfo),
      Light.intensity (Light.lightShape sh c) h =
        if (Shape.hitInfo sh h.reflect).isSome then 1 else 0) :=
  ⟨fun _ _ _ => rfl, fun _ _ _ => rfl, fun _ => rfl, fun _ _ _ => rfl⟩

/-- Witness for the amended C7 statement at a concrete hit: the sky
light's intensity is 1. -/
theorem light_intensity_amended_witness :
    Light.intensity Light.sky ⟨1, ⟨0, 0, 1⟩, ⟨0, 0, 2⟩, ⟨0, 0, -1⟩, ⟨0, 0, 1⟩, false⟩ = 1 :=
  light_intensity_amended.2.2.1 ⟨1, ⟨0, 0, 1⟩, ⟨0, 0, 2⟩, ⟨0, 0, -1⟩, ⟨0, 0, 1⟩, false⟩

/-- C7 counterexample: a concrete `LightShape` (unit sphere at the
origin) and a concrete hit whose reflect ray misses the sphere give
intensity 0, so `LightShape::intensity` is not the constant 1. -/
theorem lightshape_intensity_cex :
    Light.intensity (Light.lightShape (Shape.sphere ⟨⟨0, 0, 0⟩, 1⟩) ⟨1, 1, 1⟩)
      ⟨1, ⟨0, 0, 1⟩, ⟨0, 0, 2⟩, ⟨0, 0, -1⟩, ⟨0, 0, 1⟩, false⟩ ≠ 1 := by
  have hray : HitInfo.reflect ⟨1, ⟨0, 0, 1⟩, ⟨0, 0, 2⟩, ⟨0, 0, -1⟩, ⟨0, 0, 1⟩, false⟩ =
      ⟨⟨0, 0, 2.001⟩, ⟨0, 0, 1⟩⟩ := by
    unfold HitInfo.reflect HitInfo.pos
    simp only [Vec3.smul_def, Vec3.add_def]
    unfold EPS
    norm_num
  have hdelta : Sphere.delta ⟨⟨0, 0, 0⟩, 1⟩ ⟨⟨0, 0, 2.001⟩, ⟨0, 0, 1⟩⟩ = 4 := by
    unfold Sphere.delta Sphere.aCoef Sphere.bCoef Sphere.cCoef
    unfold Vec3.dot Vec3.len2
    simp only [Vec3.sub_def]
    norm_num
  have ht2 : Sphere.t2 ⟨⟨0, 0, 0⟩, 1⟩ ⟨⟨0, 0, 2.001⟩, ⟨0, 0, 1⟩⟩ < 0 := by
    unfold Sphere.t2
    rw [hdelta, sqrt_four]
    unfold Sphere.aCoef Sphere.bCoef
    unfold Vec3.dot Vec3.len2
    simp only [Vec3.sub_def]
    norm_num
  have hnone : Sphere.hitInfo ⟨⟨0, 0, 0⟩, 1⟩ ⟨⟨0, 0, 2.001⟩, ⟨0, 0, 1⟩⟩ = none := by
    unfold Sphere.hitInfo
    rw [if_neg (by rw [hdelta]; norm_num), if_pos ht2]
  simp only [Light.intensity, Shape.hitInfo, hray, hnone]
  norm_num

/-- C4 counterexample: a grazing configuration (raw normal perpendicular
to the incoming direction) violates the claimed invariant
`normal.dot(dir_in) <= -EPS`: the flip leaves the dot product at 0. -/
theorem hitinfo_orientation_cex :
    ¬ ((HitInfo.new 1 ⟨0, 0, 1⟩ ⟨0, 0, 0⟩ ⟨1, 0, 0⟩).norm.dot
        (HitInfo.new 1 ⟨0, 0, 1⟩ ⟨0, 0, 0⟩ ⟨1, 0, 0⟩).dirIn ≤ -EPS) := by
  have hu1 : (⟨0, 0, 1⟩ : Vec3).unit = ⟨0, 0, 1⟩ :=
    Vec3.unit_eq_self _ (by unfold Vec3.len2; norm_num)
  have hu2 : (⟨1, 0, 0⟩ : Vec3).unit = ⟨1, 0, 0⟩ :=
    Vec3.unit_eq_self _ (by unfold Vec3.len2; norm_num)
  unfold HitInfo.new
  dsimp only
  rw [hu1, hu2]
  rw [if_pos (by unfold Vec3.dot EPS; norm_num)]
  unfold Vec3.dot EPS
  simp only [Vec3.neg_def]
  norm_num

/-- C4 corrected: after `HitInfo::new`, the stored normal's dot with the
stored incoming direction is strictly below `EPS` (not `-EPS`); the flip
and the `outward` flag happen exactly when the normalized raw normal's
dot with the normalized incoming direction exceeds `-EPS`. -/
theorem hitinfo_orientation_amended (d : ℝ) (n p i : Vec3) :
    (HitInfo.new d n p i).norm.dot (HitInfo.new d n p i).dirIn < EPS ∧
    ((HitInfo.new d n p i).outward = true ↔ n.unit.dot i.unit > -EPS) ∧
    (HitInfo.new d n p i).norm = (if n.unit.dot i.unit > -EPS then -(n.unit) else n.unit) := by
  have heps : (0 : ℝ) < EPS := by unfold EPS; norm_num
  have hneg : ∀ a b : Vec3, (-a).dot b = -(a.dot b) := by
    intro a b
    unfold Vec3.dot
    simp only [Vec3.neg_def]
    ring
  unfold HitInfo.new
  dsimp only
  by_cases hc : n.unit.dot i.unit > -EPS
  · rw [if_pos hc]
    refine ⟨?_, ?_, rfl⟩
    · rw [hneg]
      linarith
    · simp [hc]
  · rw [if_neg hc]
    refine ⟨?_, ?_, rfl⟩
    · have h1 : n.unit.dot i.unit ≤ -EPS := le_of_not_lt hc
      linarith
    · simp [hc]

/-- Witness for the amended C4 statement at a concrete grazing input. -/
theorem hitinfo_orientation_amended_witness :
    (HitInfo.new 1 ⟨0, 0, 1⟩ ⟨0, 0, 0⟩ ⟨1, 0, 0⟩).norm.dot
      (HitInfo.new 1 ⟨0, 0, 1⟩ ⟨0, 0, 0⟩ ⟨1, 0, 0⟩).dirIn < EPS :=
  (hitinfo_orientation_amended 1 ⟨0, 0, 1⟩ ⟨0, 0, 0⟩ ⟨1, 0, 0⟩).1

theorem foldlMin_mem (f : α → ℝ) (xs : List α) (acc : α) :
    xs.foldl (fun a y => if rcompare (f a) (f y) = Ordering.gt then y else a) acc = acc ∨
    xs.foldl (fun a y => if rcompare (f a) (f y) = Ordering.gt then y else a) acc ∈ xs := by
  induction xs generalizing acc with
  | nil => exact Or.inl rfl
  | cons x xs ih =>
    simp only [List.foldl_cons]
    by_cases hgt : rcompare (f acc) (f x) = Ordering.gt
    · simp only [hgt, if_pos]
      rcases ih x with h | h
      · exact Or.inr (by rw [h]; exact List.mem_cons_self x xs)
      · exact Or.inr (List.mem_cons_of_mem x h)
    · simp only [hgt, ite_false]
      rcases ih acc with h | h
      · exact Or.inl h
      · exact Or.inr (List.mem_cons_of_mem x h)

/-- C1: `Ray::hit` returns `none` exactly when no object's `hit_by`
produced a record (under the same per-object motion draws `ts`), and any
returned record is one of the produced records and has the minimum
distance among them. -/
theorem ray_hit_nearest (w : World) (ray : Ray) (ts : ℕ → ℝ) :
    (Ray.hit ray w ts = none ↔
      ∀ p ∈ w.objects.enum, Object.hitBy p.2 (ts p.1) ray = none) ∧
    (∀ rec, Ray.hit ray w ts = some rec →
      (∃ p ∈ w.objects.enum, Object.hitBy p.2 (ts p.1) ray = some rec) ∧
      ∀ p ∈ w.objects.enum, ∀ rec2, Object.hitBy p.2 (ts p.1) ray = some rec2 →
        rec.distance ≤ rec2.distance) := by
  constructor
  · rw [Ray.hit, rustMinBy_eq_none_iff]
    exact List.filterMap_eq_nil_iff
  · intro rec hrec
    rw [Ray.hit] at hrec
    rcases hL : (w.objects.enum).filterMap (fun p => Object.hitBy p.2 (ts p.1) ray) with
      _ | ⟨x, xs⟩
    · rw [hL] at hrec
      simp [rustMinBy] at hrec
    · rw [hL] at hrec
      simp only [rustMinBy, Option.some.injEq] at hrec
      constructor
      · have hmem : rec = x ∨ rec ∈ xs := by
          rw [← hrec]
          exact foldlMin_mem HitRecord.distance xs x
        have hmem2 : rec ∈ (w.objects.enum).filterMap
            (fun p => Object.hitBy p.2 (ts p.1) ray) := by
          rw [hL]
          rcases hmem with rfl | hm
          · exact List.mem_cons_self _ _
          · exact List.mem_cons_of_mem _ hm
        exact List.mem_filterMap.mp hmem2
      · intro p hp rec2 h2
        have hmem2 : rec2 ∈ (w.objects.enum).filterMap
            (fun p => Object.hitBy p.2 (ts p.1) ray) :=
          List.mem_filterMap.mpr ⟨p, hp, h2⟩
        rw [hL] at hmem2
        have hle := foldlMin_le HitRecord.distance xs x
        rw [hrec] at hle
        rcases List.mem_cons.mp hmem2 with rfl | hm
        · exact hle.1
        · exact hle.2 _ hm

/-- Discriminant of the example sphere missed by the example ray. -/
theorem exMiss_delta : Sphere.delta ⟨⟨0, 0, 0⟩, 1⟩ ⟨⟨0, 0, 5⟩, ⟨0, 0, 1⟩⟩ = 4 := by
  unfold Sphere.delta Sphere.aCoef Sphere.bCoef Sphere.cCoef
  unfold Vec3.dot Vec3.len2
  simp only [Vec3.sub_def]
  norm_num

/-- Larger root of the example sphere missed by the example ray. -/
theorem exMiss_t2 : Sphere.t2 ⟨⟨0, 0, 0⟩, 1⟩ ⟨⟨0, 0, 5⟩, ⟨0, 0, 1⟩⟩ < 0 := by
  unfold Sphere.t2
  rw [exMiss_delta, sqrt_four]
  unfold Sphere.aCoef Sphere.bCoef
  unfold Vec3.dot Vec3.len2
  simp only [Vec3.sub_def]
  norm_num

/-- The example sphere is missed (sphere entirely behind the origin). -/
theorem exMiss_none : Sphere.hitInfo ⟨⟨0, 0, 0⟩, 1⟩ ⟨⟨0, 0, 5⟩, ⟨0, 0, 1⟩⟩ = none := by
  unfold Sphere.hitInfo
  rw [if_neg (by rw [exMiss_delta]; norm_num), if_pos exMiss_t2]

/-- Witness for C1 at a concrete one-object world whose object is not
hit: `Ray::hit` returns `none`. -/
theorem ray_hit_nearest_witness :
    Ray.hit ⟨⟨0, 0, 5⟩, ⟨0, 0, 1⟩⟩
      ⟨[⟨Shape.sphere ⟨⟨0, 0, 0⟩, 1⟩, Material.phong ⟨1, 1, ⟨1, 1, 1⟩⟩, ⟨0, 0, 0⟩⟩], []⟩
      (fun _ => 0) = none := by
  apply (ray_hit_nearest _ _ _).1.mpr
  intro p hp
  simp only [List.enum, List.enumFrom] at hp
  rcases List.mem_singleton.mp hp with rfl
  unfold Object.hitBy Object.movingDelta
  have hdelta : (0 : ℝ) * (⟨0, 0, 0⟩ : Vec3) = ⟨0, 0, 0⟩ := by
    simp only [Vec3.smul_def]
    norm_num
  dsimp only
  rw [hdelta]
  unfold Shape.hitMoving Sphere.hitMoving
  have hcenter : (⟨0, 0, 0⟩ : Vec3) + ⟨0, 0, 0⟩ = ⟨0, 0, 0⟩ := by
    simp only [Vec3.add_def]
    norm_num
  dsimp only
  rw [hcenter, exMiss_none]
  rfl

/-- C5: `refract` returns `none` exactly when the discriminant
`1 - ratio^2 (1 - cos^2)` is not strictly positive, otherwise the ray
with the Snell direction; and `Transparent::scatter` always returns
exactly one ray — the refracted ray when refraction succeeds, the
specular `reflect()` ray as the total-internal-reflection fallback. -/
theorem refract_tir_characterization (h : HitInfo) (ratio : ℝ) (t : Transparent) :
    (h.refract ratio = none ↔ ¬ 0 < 1 - ratio ^ 2 * (1 - (h.dirIn.dot h.norm) ^ 2)) ∧
    (0 < 1 - ratio ^ 2 * (1 - (h.dirIn.dot h.norm) ^ 2) →
      h.refract ratio = some
        ⟨h.hitPoint + EPS * (ratio * (h.dirIn - h.norm * (h.dirIn.dot h.norm)) -
            h.norm * Real.sqrt (1 - ratio ^ 2 * (1 - (h.dirIn.dot h.norm) ^ 2))),
          ratio * (h.dirIn - h.norm * (h.dirIn.dot h.norm)) -
            h.norm * Real.sqrt (1 - ratio ^ 2 * (1 - (h.dirIn.dot h.norm) ^ 2))⟩) ∧
    (Transparent.scatter t h).length = 1 ∧
    (∀ r, h.refract (if h.outward then t.ior else 1 / t.ior) = some r →
      Transparent.scatter t h = [r]) ∧
    (h.refract (if h.outward then t.ior else 1 / t.ior) = none →
      Transparent.scatter t h = [h.reflect]) := by
  refine ⟨?_, ?_, ?_, ?_, ?_⟩
  · unfold HitInfo.refract
    dsimp only
    split_ifs with hd
    · simp [hd]
    · simp [hd]
  · intro hd
    unfold HitInfo.refract
    dsimp only
    rw [if_pos hd]
  · unfold Transparent.scatter
    dsimp only
    cases h.refract (if h.outward then t.ior else 1 / t.ior) <;> rfl
  · intro r hr
    unfold Transparent.scatter
    dsimp only
    rw [hr]
  · intro hr
    unfold Transparent.scatter
    dsimp only
    rw [hr]

/-- Witness for C5 at a concrete hit and ratio: head-on refraction with
discriminant 1 produces the concrete refracted ray. -/
theorem refract_tir_witness :
    HitInfo.refract ⟨1, ⟨0, 0, -1⟩, ⟨0, 0, 0⟩, ⟨0, 0, 1⟩, ⟨0, 0, -1⟩, false⟩ 2 =
      some ⟨⟨0, 0, EPS⟩, ⟨0, 0, 1⟩⟩ := by
  have hd : (0 : ℝ) <
      1 - 2 ^ 2 * (1 - ((⟨1, ⟨0, 0, -1⟩, ⟨0, 0, 0⟩, ⟨0, 0, 1⟩, ⟨0, 0, -1⟩, false⟩ :
        HitInfo).dirIn.dot
        (⟨1, ⟨0, 0, -1⟩, ⟨0, 0, 0⟩, ⟨0, 0, 1⟩, ⟨0, 0, -1⟩, false⟩ : HitInfo).norm) ^ 2) := by
    unfold Vec3.dot
    norm_num
  have h2 := (refract_tir_characterization
    ⟨1, ⟨0, 0, -1⟩, ⟨0, 0, 0⟩, ⟨0, 0, 1⟩, ⟨0, 0, -1⟩, false⟩ 2 ⟨1, 1, ⟨1, 1, 1⟩⟩).2.1 hd
  rw [h2]
  have hdot : Vec3.dot ⟨0, 0, 1⟩ ⟨0, 0, -1⟩ = -1 := by
    unfold Vec3.dot
    norm_num
  dsimp only at hdot ⊢
  rw [hdot]
  simp only [Option.some.injEq, Ray.mk.injEq, Vec3.smul_def, Vec3.muls_def, Vec3.sub_def,
    Vec3.add_def, Vec3.mk.injEq]
  norm_num [Real.sqrt_one]

/-- C6 corrected: `Sphere::hit_info` is `none` exactly when the
discriminant is negative or the larger root `t2` is negative; otherwise
it returns the hit at parameter `t1` when `t1 >= 0` and `t2` when
`t1 < 0`, and the raw normal handed to `HitInfo` is the normalized
`point - center` for nonnegative radius and its negation for negative
radius. -/
theorem sphere_hit_amended (s : Sphere) (ray : Ray) :
    (Sphere.hitInfo s ray = none ↔ Sphere.delta s ray < 0 ∨ Sphere.t2 s ray < 0) ∧
    (¬ Sphere.delta s ray < 0 → ¬ Sphere.t2 s ray < 0 →
      Sphere.hitInfo s ray =
        some (HitInfo.new (Sphere.tHit s ray) (Sphere.normAt s (Sphere.point s ray))
          (Sphere.point s ray) ray.dir)) ∧
    (¬ Sphere.t1 s ray < 0 → Sphere.tHit s ray = Sphere.t1 s ray) ∧
    (Sphere.t1 s ray < 0 → Sphere.tHit s ray = Sphere.t2 s ray) ∧
    (¬ s.radius < 0 →
      Sphere.normAt s (Sphere.point s ray) = ((Sphere.point s ray) - s.center).unit) ∧
    (s.radius < 0 →
      Sphere.normAt s (Sphere.point s ray) = -(((Sphere.point s ray) - s.center).unit)) := by
  refine ⟨?_, ?_, ?_, ?_, ?_, ?_⟩
  · unfold Sphere.hitInfo
    split_ifs with h1 h2
    · simp [h1]
    · simp [h1, h2]
    · simp [h1, h2]
  · intro h1 h2
    unfold Sphere.hitInfo
    rw [if_neg h1, if_neg h2]
  · intro h1
    unfold Sphere.tHit
    rw [if_neg h1]
  · intro h1
    unfold Sphere.tHit
    rw [if_pos h1]
  · intro h1
    unfold Sphere.normAt
    rw [if_neg h1]
  · intro h1
    unfold Sphere.normAt
    rw [if_pos h1]

/-- Witness for the amended C6 statement: the example sphere behind the
ray has `t2 < 0`, hence no hit. -/
theorem sphere_hit_amended_witness :
    Sphere.hitInfo ⟨⟨0, 0, 0⟩, 1⟩ ⟨⟨0, 0, 5⟩, ⟨0, 0, 1⟩⟩ = none :=
  (sphere_hit_amended ⟨⟨0, 0, 0⟩, 1⟩ ⟨⟨0, 0, 5⟩, ⟨0, 0, 1⟩⟩).1.mpr (Or.inr exMiss_t2)

/-- C6 counterexample: for a sphere of radius -1 the example ray does
hit, but the raw normal handed to `HitInfo` is not the normalized
`point - center` (it is its negation). -/
theorem sphere_raw_normal_cex :
    (Sphere.hitInfo ⟨⟨0, 0, 0⟩, -1⟩ ⟨⟨0, 0, -3⟩, ⟨0, 0, 1⟩⟩).isSome = true ∧
    Sphere.normAt ⟨⟨0, 0, 0⟩, -1⟩ (Sphere.point ⟨⟨0, 0, 0⟩, -1⟩ ⟨⟨0, 0, -3⟩, ⟨0, 0, 1⟩⟩) ≠
      ((Sphere.point ⟨⟨0, 0, 0⟩, -1⟩ ⟨⟨0, 0, -3⟩, ⟨0, 0, 1⟩⟩) - (⟨0, 0, 0⟩ : Vec3)).unit := by
  have hdelta : Sphere.delta ⟨⟨0, 0, 0⟩, -1⟩ ⟨⟨0, 0, -3⟩, ⟨0, 0, 1⟩⟩ = 4 := by
    unfold Sphere.delta Sphere.aCoef Sphere.bCoef Sphere.cCoef
    unfold Vec3.dot Vec3.len2
    simp only [Vec3.sub_def]
    norm_num
  have ht1 : Sphere.t1 ⟨⟨0, 0, 0⟩, -1⟩ ⟨⟨0, 0, -3⟩, ⟨0, 0, 1⟩⟩ = 2 := by
    unfold Sphere.t1
    rw [hdelta, sqrt_four]
    unfold Sphere.aCoef Sphere.bCoef
    unfold Vec3.dot Vec3.len2
    simp only [Vec3.sub_def]
    norm_num
  have ht2 : Sphere.t2 ⟨⟨0, 0, 0⟩, -1⟩ ⟨⟨0, 0, -3⟩, ⟨0, 0, 1⟩⟩ = 4 := by
    unfold Sphere.t2
    rw [hdelta, sqrt_four]
    unfold Sphere.aCoef Sphere.bCoef
    unfold Vec3.dot Vec3.len2
    simp only [Vec3.sub_def]
    norm_num
  have htH : Sphere.tHit ⟨⟨0, 0, 0⟩, -1⟩ ⟨⟨0, 0, -3⟩, ⟨0, 0, 1⟩⟩ = 2 := by
    unfold Sphere.tHit
    rw [ht1, ht2]
    norm_num
  have hpoint : Sphere.point ⟨⟨0, 0, 0⟩, -1⟩ ⟨⟨0, 0, -3⟩, ⟨0, 0, 1⟩⟩ = ⟨0, 0, -1⟩ := by
    unfold Sphere.point
    rw [htH]
    simp only [Vec3.muls_def, Vec3.add_def]
    norm_num
  have hsub : (⟨0, 0, -1⟩ : Vec3) - ⟨0, 0, 0⟩ = ⟨0, 0, -1⟩ := by
    simp only [Vec3.sub_def]
    norm_num
  have hunit : ((⟨0, 0, -1⟩ : Vec3)).unit = ⟨0, 0, -1⟩ :=
    Vec3.unit_eq_self _ (by unfold Vec3.len2; norm_num)
  constructor
  · unfold Sphere.hitInfo
    rw [if_neg (by rw [hdelta]; norm_num), if_neg (by rw [ht2]; norm_num)]
    rfl
  · rw [hpoint, hsub, hunit]
    unfold Sphere.normAt
    rw [if_pos (by norm_num), hsub, hunit]
    simp only [Vec3.neg_def, ne_eq, Vec3.mk.injEq]
    norm_num

/-- Helper: `HitInfo::new` stores the given distance unchanged. -/
@[simp] theorem HitInfo.distance_new (d : ℝ) (n p i : Vec3) :
    (HitInfo.new d n p i).distance = d := rfl

/-- C10: negating the radius leaves the hit parameters of
`Sphere::hit_info` unchanged (the quadratic depends only on radius
squared), and a negative radius flips the raw surface normal toward the
center. -/
theorem sphere_negative_radius (c0 : Vec3) (r : ℝ) (ray : Ray) :
    ((Sphere.hitInfo ⟨c0, -r⟩ ray).map HitInfo.distance =
      (Sphere.hitInfo ⟨c0, r⟩ ray).map HitInfo.distance) ∧
    (∀ (s : Sphere) (p : Vec3), s.radius < 0 → Sphere.normAt s p = -((p - s.center).unit)) := by
  have hc : Sphere.cCoef ⟨c0, -r⟩ ray = Sphere.cCoef ⟨c0, r⟩ ray := by
    unfold Sphere.cCoef
    dsimp only
    ring
  have ha : Sphere.aCoef ⟨c0, -r⟩ ray = Sphere.aCoef ⟨c0, r⟩ ray := rfl
  have hb : Sphere.bCoef ⟨c0, -r⟩ ray = Sphere.bCoef ⟨c0, r⟩ ray := rfl
  have hd : Sphere.delta ⟨c0, -r⟩ ray = Sphere.delta ⟨c0, r⟩ ray := by
    unfold Sphere.delta
    rw [ha, hb, hc]
  have ht1 : Sphere.t1 ⟨c0, -r⟩ ray = Sphere.t1 ⟨c0, r⟩ ray := by
    unfold Sphere.t1
    rw [ha, hb, hd]
  have ht2 : Sphere.t2 ⟨c0, -r⟩ ray = Sphere.t2 ⟨c0, r⟩ ray := by
    unfold Sphere.t2
    rw [ha, hb, hd]
  have htH : Sphere.tHit ⟨c0, -r⟩ ray = Sphere.tHit ⟨c0, r⟩ ray := by
    unfold Sphere.tHit
    rw [ht1, ht2]
  constructor
  · unfold Sphere.hitInfo
    rw [hd, ht2, htH]
    split_ifs with h1 h2
    · rfl
    · rfl
    · simp only [Option.map_some', HitInfo.distance_new]
  · intro s p hneg
    unfold Sphere.normAt
    rw [if_pos hneg]

/-- Core of the reflection law: for a unit incoming direction and a
mirror axis that is either zero or unit, the normalized reflected
direction satisfies the law of reflection and stays unit. -/
theorem reflect_core (i N : Vec3) (hi2 : i.len2 = 1) (hN : N = ⟨0, 0, 0⟩ ∨ N.len2 = 1) :
    ((i - (2 : ℝ) * i.projTo N).unit).dot N = -(i.dot N) ∧
    (i - (2 : ℝ) * i.projTo N).unit.len = 1 := by
  rcases hN with rfl | hN1
  · have hproj : i.projTo ⟨0, 0, 0⟩ = ⟨0, 0, 0⟩ := by
      unfold Vec3.projTo
      rw [Vec3.zero_unit]
      simp only [Vec3.muls_def]
      norm_num
    have hsmul : (2 : ℝ) * (⟨0, 0, 0⟩ : Vec3) = ⟨0, 0, 0⟩ := by
      simp only [Vec3.smul_def]
      norm_num
    have hsub : i - ⟨0, 0, 0⟩ = i := by
      cases i
      simp
    rw [hproj, hsmul, hsub, Vec3.unit_eq_self i hi2]
    constructor
    · unfold Vec3.dot
      dsimp only
      ring
    · unfold Vec3.len
      rw [hi2, Real.sqrt_one]
  · have hNu : N.unit = N := Vec3.unit_eq_self N hN1
    have hproj : i.projTo N = N * (i.dot N) := by
      unfold Vec3.projTo
      rw [hNu]
    rw [hproj]
    obtain ⟨ix, iy, iz⟩ := i
    obtain ⟨nx, ny, nz⟩ := N
    unfold Vec3.len2 at hi2 hN1
    dsimp only at hi2 hN1
    have hv2 : ((⟨ix, iy, iz⟩ : Vec3) -
        (2 : ℝ) * ((⟨nx, ny, nz⟩ : Vec3) * Vec3.dot ⟨ix, iy, iz⟩ ⟨nx, ny, nz⟩)).len2 = 1 := by
      unfold Vec3.len2 Vec3.dot
      simp only [Vec3.muls_def, Vec3.smul_def, Vec3.sub_def]
      linear_combination hi2 + 4 * (ix * nx + iy * ny + iz * nz) ^ 2 * hN1
    rw [Vec3.unit_eq_self _ hv2]
    constructor
    · unfold Vec3.dot
      simp only [Vec3.muls_def, Vec3.smul_def, Vec3.sub_def]
      linear_combination (-2) * (ix * nx + iy * ny + iz * nz) * hN1
    · unfold Vec3.len
      rw [hv2, Real.sqrt_one]

/-- C8: constructed from a unit incoming direction, the stored outgoing
direction obeys the law of reflection against the stored oriented
normal (`dir_out · normal = -(dir_in · normal)`) and is unit length,
over exact reals. -/
theorem reflection_law (d : ℝ) (n p i : Vec3) (hi : i.len = 1) :
    (HitInfo.new d n p i).dirOut.dot (HitInfo.new d n p i).norm =
      -((HitInfo.new d n p i).dirIn.dot (HitInfo.new d n p i).norm) ∧
    (HitInfo.new d n p i).dirOut.len = 1 := by
  have hi2 : i.len2 = 1 := by
    rw [← Vec3.len_sq, hi]
    norm_num
  have hiu : i.unit = i := Vec3.unit_eq_self i hi2
  unfold HitInfo.new
  dsimp only
  rw [hiu]
  rcases Vec3.unit_zero_or_len2_one n with h0 | h1
  · rw [h0]
    have hdot0 : (⟨0, 0, 0⟩ : Vec3).dot i = 0 := by
      unfold Vec3.dot
      dsimp only
      ring
    rw [hdot0]
    rw [if_pos (by unfold EPS; norm_num)]
    have hnz : -(⟨0, 0, 0⟩ : Vec3) = ⟨0, 0, 0⟩ := by
      simp only [Vec3.neg_def]
      norm_num
    rw [hnz]
    exact reflect_core i ⟨0, 0, 0⟩ hi2 (Or.inl rfl)
  · by_cases hcond : n.unit.dot i > -EPS
    · rw [if_pos hcond]
      exact reflect_core i (-(n.unit)) hi2 (Or.inr (by rw [Vec3.neg_len2]; exact h1))
    · rw [if_neg hcond]
      exact reflect_core i n.unit hi2 (Or.inr h1)

/-- Witness for C8 at a concrete unit direction. -/
theorem reflection_law_witness :
    Vec3.len ⟨0, 0, 1⟩ = 1 ∧
    ((HitInfo.new 1 ⟨0, 0, 1⟩ ⟨0, 0, 0⟩ ⟨0, 0, 1⟩).dirOut.dot
        (HitInfo.new 1 ⟨0, 0, 1⟩ ⟨0, 0, 0⟩ ⟨0, 0, 1⟩).norm =
      -((HitInfo.new 1 ⟨0, 0, 1⟩ ⟨0, 0, 0⟩ ⟨0, 0, 1⟩).dirIn.dot
        (HitInfo.new 1 ⟨0, 0, 1⟩ ⟨0, 0, 0⟩ ⟨0, 0, 1⟩).norm) ∧
      (HitInfo.new 1 ⟨0, 0, 1⟩ ⟨0, 0, 0⟩ ⟨0, 0, 1⟩).dirOut.len = 1) := by
  have hlen : Vec3.len ⟨0, 0, 1⟩ = 1 := by
    unfold Vec3.len Vec3.len2
    norm_num [Real.sqrt_one]
  exact ⟨hlen, reflection_law 1 ⟨0, 0, 1⟩ ⟨0, 0, 0⟩ ⟨0, 0, 1⟩ hlen⟩

/-- Helper: `Transparent::scatter` always produces exactly one ray. -/
theorem scatter_length_transparent (t : Transparent) (h : HitInfo) :
    (Transparent.scatter t h).length = 1 := by
  unfold Transparent.scatter
  dsimp only
  cases h.refract (if h.outward then t.ior else 1 / t.ior) <;> rfl

/-- A head index into a nonempty list, then a map, never panics. -/
theorem get0_map_isSome (f : Color → Color) (traced : List Color) (h1 : 1 ≤ traced.length) :
    ((traced.get? 0).map f).isSome := by
  cases ht : traced.get? 0 with
  | none =>
    rw [List.get?_eq_none] at ht
    omega
  | some c => simp

/-- Helper: `Specular::render` cannot panic on a nonempty traced slice. -/
theorem specular_render_isSome (s : Specular) (h : HitInfo) (w : World) (traced : List Color)
    (h1 : 1 ≤ traced.length) : (Specular.render s h w traced).isSome := by
  unfold Specular.render
  exact get0_map_isSome _ _ h1

/-- Helper: `Transparent::render` cannot panic on a nonempty traced slice. -/
theorem transparent_render_isSome (t : Transparent) (h : HitInfo) (w : World)
    (traced : List Color) (h1 : 1 ≤ traced.length) :
    (Transparent.render t h w traced).isSome := by
  unfold Transparent.render
  exact get0_map_isSome _ _ h1

/-- Every material's `render` succeeds when given exactly as many traced
colors as its `scatter` produced rays. -/
theorem render_isSome_of_scatter_len (m : Material) (h : HitInfo) (w : World)
    (lr : ℕ → ℕ → ℕ → ℝ) (u a b : ℝ) (traced : List Color)
    (hlen : traced.length = (Material.scatter m h u a b).length) :
    (Material.render m h w lr traced).isSome := by
  cases m with
  | phong pm => simp [Material.render]
  | specular s =>
    have h1 : traced.length = 1 := by
      simpa [Material.scatter, Material.defaultScatter] using hlen
    exact specular_render_isSome s h w traced (by omega)
  | transparent t =>
    rw [Material.scatter, scatter_length_transparent] at hlen
    exact transparent_render_isSome t h w traced (by omega)
  | metal mt =>
    have h1 : traced.length = 1 := by
      simpa [Material.scatter] using hlen
    have hs := specular_render_isSome mt.s h w traced (by omega)
    obtain ⟨v, hv⟩ := Option.isSome_iff_exists.mp hs
    simp only [Material.render]
    rw [hv]
    rfl
  | dielectric dl =>
    have hsl : (Material.scatter (Material.dielectric dl) h u a b).length = 1 := by
      simp only [Material.scatter]
      split_ifs
      · rfl
      · exact scatter_length_transparent dl.r h
    rw [hsl] at hlen
    exact transparent_render_isSome dl.r h w traced (by omega)
  | lambertian lm =>
    have h1 : traced.length = 1 := by
      simpa [Material.scatter] using hlen
    have hs := specular_render_isSome lm.s h w traced (by omega)
    obtain ⟨v, hv⟩ := Option.isSome_iff_exists.mp hs
    simp only [Material.render]
    rw [hv]
    rfl

/-- Helper: `optionAll` succeeds, preserving length, when all elements are
`some`. -/
theorem optionAll_isSome_of (l : List (Option α)) (h : ∀ x ∈ l, x.isSome) :
    ∃ xs, optionAll l = some xs ∧ xs.length = l.length := by
  induction l with
  | nil => exact ⟨[], rfl, rfl⟩
  | cons x xs ih =>
    obtain ⟨a, ha⟩ := Option.isSome_iff_exists.mp (h x (List.mem_cons_self x xs))
    obtain ⟨ys, hys, hlen⟩ := ih (fun y hy => h y (List.mem_cons_of_mem x hy))
    refine ⟨a :: ys, ?_, by simp [hlen]⟩
    simp [optionAll, ha, hys]

/-- Helper: `World::trace` never panics: at every depth it returns a color. -/
theorem trace_isSome (w : World) (rnd : Rnd) :
    ∀ (d : ℕ) (ray : Ray) (path : List ℕ), (World.trace w rnd d ray path).isSome := by
  intro d
  induction d with
  | zero =>
    intro ray path
    rfl
  | succ d ih =>
    intro ray path
    rw [World.trace]
    dsimp only
    split
    · split
      · rfl
      · rename_i rec _
        have hall : ∀ x ∈ ((Material.scatter rec.material rec.info (rnd.u path)
              (rnd.theta path) (rnd.phi path)).enum).map
              (fun p => World.trace w rnd d p.2 (p.1 :: path)), x.isSome := by
          intro x hx
          obtain ⟨q, _, rfl⟩ := List.mem_map.mp hx
          exact ih q.2 (q.1 :: path)
        obtain ⟨traced, htr, hlen⟩ := optionAll_isSome_of _ hall
        rw [htr]
        apply render_isSome_of_scatter_len rec.material rec.info w (rnd.shadeTs path)
          (rnd.u path) (rnd.theta path) (rnd.phi path)
        rw [hlen, List.length_map, List.enum_length]
    · rfl

/-- C9: `Specular::render` and `Transparent::render` index `traced[0]`
and hence panic on an empty traced slice; the scatter of every material
delegating to them (Metal, LambertianModel, Transparent, Dielectric)
returns exactly one ray, and `World::trace`, which passes one traced
color per scattered ray, therefore never reaches the panic. -/
theorem render_index_panic_safety :
    (∀ (s : Specular) (h : HitInfo) (w : World), Specular.render s h w [] = none) ∧
    (∀ (t : Transparent) (h : HitInfo) (w : World), Transparent.render t h w [] = none) ∧
    (∀ (mt : Metal) (h : HitInfo) (u a b : ℝ),
      (Material.scatter (Material.metal mt) h u a b).length = 1) ∧
    (∀ (lm : LambertianModel) (h : HitInfo) (u a b : ℝ),
      (Material.scatter (Material.lambertian lm) h u a b).length = 1) ∧
    (∀ (t : Transparent) (h : HitInfo) (u a b : ℝ),
      (Material.scatter (Material.transparent t) h u a b).length = 1) ∧
    (∀ (dl : Dielectric) (h : HitInfo) (u a b : ℝ),
      (Material.scatter (Material.dielectric dl) h u a b).length = 1) ∧
    (∀ (w : World) (rnd : Rnd) (d : ℕ) (ray : Ray) (path : List ℕ),
      (World.trace w rnd d ray path).isSome) := by
  refine ⟨fun _ _ _ => rfl, fun _ _ _ => rfl, fun _ _ _ _ _ => rfl, fun _ _ _ _ _ => rfl,
    ?_, ?_, ?_⟩
  · intro t h u a b
    exact scatter_length_transparent t h
  · intro dl h u a b
    simp only [Material.scatter]
    split_ifs
    · rfl
    · exact scatter_length_transparent dl.r h
  · intro w rnd d ray path
    exact trace_isSome w rnd d ray path

/-- Witness for C10: the concrete negative-radius sphere flips the raw
normal. -/
theorem sphere_negative_radius_witness :
    Sphere.normAt ⟨⟨0, 0, 0⟩, -1⟩ ⟨0, 0, -1⟩ =
      -(((⟨0, 0, -1⟩ : Vec3) - (⟨0, 0, 0⟩ : Vec3)).unit) :=
  (sphere_negative_radius ⟨0, 0, 0⟩ 1 ⟨⟨0, 0, 0⟩, ⟨0, 0, 1⟩⟩).2
    ⟨⟨0, 0, 0⟩, -1⟩ ⟨0, 0, -1⟩ (by norm_num)

end
